import Mathlib

/-!
Verification development for the LPHub backtesting repository.

The two components under study are:
* the volume-clock aggregator / VPIN calculator
  (`src/vpin_calculator.py`, function `calculate_vpin`), and
* the causal per-trade fee estimator
  (`src/backtesting/scripts/fee_calculation_sim.py`,
   method `calculate_fees_with_vpin_full_timeseries`).

Real numbers of the Python code are modelled as exact rationals (`ℚ`);
a Python `ZeroDivisionError` is modelled by an explicit `Except` error;
the unbounded `while` loop of the bucket filler is modelled with an
explicit fuel argument (running out of fuel is a dedicated model-level
outcome, never silently conflated with a behaviour of the code).
-/

namespace Backtest

/-! ## Volume-clock aggregator (`src/vpin_calculator.py`, lines 21-130) -/

/-- One emitted bucket record: `bucket_abs_volume`, `bucket_net_volume`,
`order_imbalance` of the Python output row (the remaining columns of the
Python dict are join keys and window means, not needed by the claims on
the bucketing pass). -/
structure Bucket where
  absVolume : ℚ
  netVolume : ℚ
  orderImbalance : ℚ
deriving DecidableEq, Repr

/-- The mutable loop state of `calculate_vpin`:
`current_bucket_abs_volume`, `current_bucket_net_volume`, and the
`bucket_details` list accumulated so far. -/
structure AggState where
  currentAbs : ℚ
  currentNet : ℚ
  buckets : List Bucket
deriving DecidableEq, Repr

/-- Model-level run outcome for the bucketing pass.  `divisionByZero`
models a Python `ZeroDivisionError` (the only exception this code can
raise on rational-valued data); `fuelExhausted` is a model artifact of
bounding the `while` loop and corresponds to no Python behaviour. -/
inductive RunErr where
  | fuelExhausted
  | divisionByZero
deriving DecidableEq, Repr

/-- Lines 77-105: close the current bucket
(`order_imbalance = abs(current_bucket_net_volume) / bucket_size`,
append the record, reset the accumulators).  The division raises
`ZeroDivisionError` when `bucket_size` is zero, exactly as in Python. -/
def closeBucket (bucketSize : ℚ) (st : AggState) : Except RunErr AggState :=
  if bucketSize = 0 then .error .divisionByZero
  else
    .ok { currentAbs := 0, currentNet := 0,
          buckets := st.buckets ++
            [⟨st.currentAbs, st.currentNet, |st.currentNet| / bucketSize⟩] }

/-- Lines 59-105: the inner `while remaining_volume > 0` loop distributing
one trade (absolute volume `absTrade`, running signed remainder) over one
or more buckets.  `fuel` bounds the number of iterations. -/
def distributeTrade (bucketSize absTrade : ℚ) :
    ℕ → ℚ → ℚ → AggState → Except RunErr AggState
  | 0, remaining, _, st =>
      if 0 < remaining then .error .fuelExhausted else .ok st
  | fuel + 1, remaining, remainingNet, st =>
      if 0 < remaining then
        let volumeNeeded := bucketSize - st.currentAbs
        let volumeToAdd := min remaining volumeNeeded
        let proportion := volumeToAdd / absTrade
        let netVolumeToAdd := remainingNet * proportion
        let st' : AggState :=
          { st with currentAbs := st.currentAbs + volumeToAdd,
                    currentNet := st.currentNet + netVolumeToAdd }
        if bucketSize ≤ st'.currentAbs then
          match closeBucket bucketSize st' with
          | .error e => .error e
          | .ok st'' =>
              distributeTrade bucketSize absTrade fuel
                (remaining - volumeToAdd) (remainingNet - netVolumeToAdd) st''
        else
          distributeTrade bucketSize absTrade fuel
            (remaining - volumeToAdd) (remainingNet - netVolumeToAdd) st'
      else .ok st

/-- Lines 51-57: per-trade setup (`abs_trade_volume = abs(trade_volume)`,
`remaining_volume`, `remaining_net_volume`) followed by the filling loop. -/
def processTrade (bucketSize : ℚ) (fuel : ℕ) (st : AggState) (tradeVolume : ℚ) :
    Except RunErr AggState :=
  distributeTrade bucketSize |tradeVolume| fuel |tradeVolume| tradeVolume st

/-- Line 51: the `for` loop over the (already zero-filtered) trade tape. -/
def processTrades (bucketSize : ℚ) (fuel : ℕ) :
    AggState → List ℚ → Except RunErr AggState
  | st, [] => .ok st
  | st, tv :: tvs =>
      match processTrade bucketSize fuel st tv with
      | .error e => .error e
      | .ok st' => processTrades bucketSize fuel st' tvs

/-- Lines 107-130: after the last trade, emit the trailing partial bucket
when `current_bucket_abs_volume > 0` (same imbalance formula, same
possible `ZeroDivisionError`). -/
def flushFinalBucket (bucketSize : ℚ) (st : AggState) : Except RunErr (List Bucket) :=
  if 0 < st.currentAbs then
    if bucketSize = 0 then .error .divisionByZero
    else .ok (st.buckets ++
      [⟨st.currentAbs, st.currentNet, |st.currentNet| / bucketSize⟩])
  else .ok st.buckets

/-- The streaming bucketing pass of `calculate_vpin` for a given bucket
size: initial empty accumulators, the trade loop, then the final flush. -/
def calcBuckets (bucketSize : ℚ) (fuel : ℕ) (trades : List ℚ) :
    Except RunErr (List Bucket) :=
  match processTrades bucketSize fuel ⟨0, 0, []⟩ trades with
  | .error e => .error e
  | .ok st => flushFinalBucket bucketSize st

/-- One input row of `calculate_vpin` (the columns it reads): the trade's
calendar date (`pd.to_datetime(..).dt.date`, modelled as an integer day
key), the signed `tradevolume` column and the separate `abs_tradevolume`
column used for the bucket-size statistic. -/
structure VpinRow where
  date : ℤ
  tradevolume : ℚ
  absTradevolume : ℚ
deriving DecidableEq, Repr

/-- Distinct dates of the (filtered) input, in order of first appearance
(the group keys of `groupby('date')`). -/
def dailyDates (rows : List VpinRow) : List ℤ :=
  (rows.map (·.date)).dedup

/-- Daily summed `abs_tradevolume` for one date
(line 31: `df.groupby('date')['abs_tradevolume'].sum()`). -/
def dailySum (rows : List VpinRow) (d : ℤ) : ℚ :=
  ((rows.filter (fun r => decide (r.date = d))).map (·.absTradevolume)).sum

/-- Line 32: mean of the daily sums.  (For an empty input the rational
model yields `0` where pandas yields `NaN`; the value is only consumed by
the streaming loop, which does not run on an empty input.) -/
def avgDailyVolume (rows : List VpinRow) : ℚ :=
  ((dailyDates rows).map (dailySum rows)).sum / (dailyDates rows).length

/-- The whole `calculate_vpin` pipeline on in-memory rows: filter out
zero-`tradevolume` rows (line 24), compute
`bucket_size = avg_daily_volume / 50` (line 37), then stream.  The code
performs no validation before the streaming loop. -/
def runCalcVpin (fuel : ℕ) (rows : List VpinRow) : Except RunErr (List Bucket) :=
  let filtered := rows.filter (fun r => decide (r.tradevolume ≠ 0))
  let bucketSize := avgDailyVolume filtered / 50
  calcBuckets bucketSize fuel (filtered.map (·.tradevolume))

/-! ## Rolling toxicity estimator (`src/vpin_calculator.py`, lines 44-46 and 81-118)

On every bucket close the code appends the bucket's `order_imbalance` to
each of the three window lists, pops the front element when the list
exceeds the window length, and reports `np.mean` of the list.  The queue
held by a window is a pure fold over the sequence of emitted bucket
imbalances, which is how it is modelled here. -/

/-- Window lengths of line 45 (`vpin_daily`, `vpin_5day`, `vpin_7day`). -/
def vpinDailyLen : ℕ := 50

def vpin5dayLen : ℕ := 250

def vpin7dayLen : ℕ := 350

/-- Lines 85-87: append the new imbalance, evict the oldest element when
the queue exceeds the window length. -/
def windowPush (sampleLength : ℕ) (q : List ℚ) (x : ℚ) : List ℚ :=
  let q' := q ++ [x]
  if sampleLength < q'.length then q'.drop 1 else q'

/-- The queue contents of one window after consuming a sequence of bucket
imbalances. -/
def windowFold (sampleLength : ℕ) (imbalances : List ℚ) : List ℚ :=
  imbalances.foldl (windowPush sampleLength) []

/-- Line 88: `np.mean(imbalances)`, as exact rational arithmetic
(`sum / length`). -/
def vpinValue (q : List ℚ) : ℚ :=
  q.sum / q.length

/-! ## Causal fee estimator
(`src/backtesting/scripts/fee_calculation_sim.py`,
 `calculate_fees_with_vpin_full_timeseries`, lines 341-432)

The method iterates over the timestamp-sorted minute/trade rows carrying
a VPIN cursor (`vpin_idx` / `latest_vpin`), the ILLIQ carry-forward cache
(`latest_illiq`) and the Python local variable `inventory_exposure`
(assigned only on positive-volume rows; reading it before any assignment
raises `UnboundLocalError`, modelled by `FeeError`).

The inventory model is external to this component (the code calls
`calculate_token_amounts_at_price` and reads only its
`inventory_exposure` field, a pure function of the row's price for fixed
position parameters); it is therefore a function parameter `invExp` of
the embedding. -/

/-- One input row of the fee pass: timestamp, price, signed
`tradevolume`, and the row's `ILLIQ` cell (`none` models a null/`NaN`
cell, i.e. `pd.notna` false; `some x` a finite reading). -/
structure TradeRow where
  ts : ℤ
  price : ℚ
  tradevolume : ℚ
  illiq : Option ℚ
deriving DecidableEq, Repr

/-- One row of the loaded VPIN analysis file: the bucket's closing
timestamp and its chosen-window toxicity value. -/
structure VpinEntry where
  ts : ℤ
  value : ℚ
deriving DecidableEq, Repr

/-- `UnboundLocalError` on the `inventory_exposure` local (raised when
the results dict is built on a row before any positive-volume row has
assigned the variable). -/
inductive FeeError where
  | unboundInventoryExposure
deriving DecidableEq, Repr

/-- The loop state threaded across rows: `pending` is the sub-list of
VPIN entries strictly after the cursor position `vpin_idx`;
`latestVpin` is `vpin_values[vpin_idx]` (`none` iff the VPIN table is
empty); `latestIlliq` is the `latest_illiq` cache; `invExposure` is the
last value assigned to the `inventory_exposure` local (`none` = still
unassigned). -/
structure FeeState where
  pending : List VpinEntry
  latestVpin : Option ℚ
  latestIlliq : Option ℚ
  invExposure : Option ℚ
deriving DecidableEq, Repr

/-- Lines 343-347: `vpin_idx = 0`,
`latest_vpin = vpin_values[0] if n_vpin > 0 else None`. -/
def initCursor (vpin : List VpinEntry) : List VpinEntry × Option ℚ :=
  match vpin with
  | [] => ([], none)
  | e :: rest => (rest, some e.value)

/-- Initial loop state (lines 343-350). -/
def initFeeState (vpin : List VpinEntry) : FeeState :=
  { pending := (initCursor vpin).1, latestVpin := (initCursor vpin).2,
    latestIlliq := none, invExposure := none }

/-- Lines 359-361: `while vpin_idx + 1 < n_vpin and
vpin_timestamps[vpin_idx + 1] <= timestamp: vpin_idx += 1;
latest_vpin = vpin_values[vpin_idx]`. -/
def advanceCursor : List VpinEntry → Option ℚ → ℤ → List VpinEntry × Option ℚ
  | [], latest, _ => ([], latest)
  | e :: rest, latest, t =>
      if e.ts ≤ t then advanceCursor rest (some e.value) t
      else (e :: rest, latest)

/-- Lines 366-370: read the row's ILLIQ cell, treating a null/`NaN` cell
and an exact-zero reading as absent. -/
def validIlliq (cell : Option ℚ) : Option ℚ :=
  match cell with
  | some x => if x = 0 then none else some x
  | none => none

/-- Lines 390-392: the `latest_illiq` carry-forward update (performed on
every row, after the fee computation, whenever the row's reading is
valid). -/
def updateIlliq (cache : Option ℚ) (cell : Option ℚ) : Option ℚ :=
  match validIlliq cell with
  | some c => some c
  | none => cache

/-- One emitted row of the fee pass (the fields of the results dict,
lines 414-429, that the claims speak about). -/
structure FeeRow where
  ts : ℤ
  price : ℚ
  tradeVolume : ℚ
  absTradeVolume : ℚ
  illiq : Option ℚ
  vpinUsed : Option ℚ
  estimatedPriceImpact : ℚ
  expectedImpermanentLoss : ℚ
  baseFee : ℚ
  vpinFeePctOfVolume : ℚ
  vpinFeeAbsolute : ℚ
  totalFee : ℚ
  feePctOfVolume : ℚ
  inventoryExposure : ℚ
deriving DecidableEq, Repr

/-- Lines 397-399: `vpin_fee_pct_of_volume =
expected_impermanent_loss * vpin_at_time if vpin_at_time is not None
else 0.0`. -/
def vpinFeeOf (vpinAtTime : Option ℚ) (expectedIL : ℚ) : ℚ :=
  match vpinAtTime with
  | some v => expectedIL * v
  | none => 0

/-- The body of the `for` loop (lines 352-429) for a single row:
advance the VPIN cursor, compute the fee fields from the *prior*
`latest_illiq`, then update the ILLIQ cache, and build the results dict
(which raises `UnboundLocalError` if `inventory_exposure` was never
assigned). -/
def feeStep (invExp : ℚ → ℚ) (baseFeePct : ℚ) (st : FeeState) (row : TradeRow) :
    Except FeeError (FeeState × FeeRow) :=
  let absTradeVolume := |row.tradevolume|
  let cursor := advanceCursor st.pending st.latestVpin row.ts
  let vpinAtTime := cursor.2
  let currentIlliq := validIlliq row.illiq
  let feePart : ℚ × ℚ × Option ℚ :=
    if 0 < absTradeVolume then
      let inventoryExposure := invExp row.price
      match st.latestIlliq with
      | some l =>
          let estimatedPriceImpact := l * absTradeVolume / 1000000
          (estimatedPriceImpact, estimatedPriceImpact * inventoryExposure,
           some inventoryExposure)
      | none => (0, 0, some inventoryExposure)
    else (0, 0, st.invExposure)
  let estimatedPriceImpact := feePart.1
  let expectedImpermanentLoss := feePart.2.1
  let latestIlliq' := updateIlliq st.latestIlliq row.illiq
  let baseFee := if 0 < absTradeVolume then baseFeePct / 100 * absTradeVolume else 0
  let vpinFeePct := vpinFeeOf vpinAtTime expectedImpermanentLoss
  let vpinFeeAbs := if 0 < absTradeVolume then vpinFeePct * absTradeVolume else 0
  let totalFee := baseFee + vpinFeeAbs
  let feePct := if 0 < absTradeVolume then totalFee / absTradeVolume else 0
  match feePart.2.2 with
  | none => .error .unboundInventoryExposure
  | some ie =>
      .ok ({ pending := cursor.1, latestVpin := cursor.2,
             latestIlliq := latestIlliq', invExposure := some ie },
           { ts := row.ts, price := row.price, tradeVolume := row.tradevolume,
             absTradeVolume := absTradeVolume, illiq := currentIlliq,
             vpinUsed := vpinAtTime,
             estimatedPriceImpact := estimatedPriceImpact,
             expectedImpermanentLoss := expectedImpermanentLoss,
             baseFee := baseFee, vpinFeePctOfVolume := vpinFeePct,
             vpinFeeAbsolute := vpinFeeAbs, totalFee := totalFee,
             feePctOfVolume := feePct, inventoryExposure := ie })

/-- The `for` loop from an arbitrary state. -/
def runFeesFrom (invExp : ℚ → ℚ) (baseFeePct : ℚ) :
    FeeState → List TradeRow → Except FeeError (List FeeRow)
  | _, [] => .ok []
  | st, row :: rows =>
      match feeStep invExp baseFeePct st row with
      | .error e => .error e
      | .ok (st', out) =>
          match runFeesFrom invExp baseFeePct st' rows with
          | .error e => .error e
          | .ok outs => .ok (out :: outs)

/-- `calculate_fees_with_vpin_full_timeseries` on in-memory data:
initialize the cursor and caches, then run the row loop. -/
def runFees (invExp : ℚ → ℚ) (baseFeePct : ℚ) (vpin : List VpinEntry)
    (rows : List TradeRow) : Except FeeError (List FeeRow) :=
  runFeesFrom invExp baseFeePct (initFeeState vpin) rows

/-- The toxicity value the loop attaches to a trade at timestamp `t`,
in closed form: the value of the last VPIN entry whose timestamp is
`≤ t`; when no entry qualifies but the table is nonempty, the *first*
entry's value; `none` only for an empty table. -/
def vpinLookup (vpin : List VpinEntry) (t : ℤ) : Option ℚ :=
  match vpin with
  | [] => none
  | e :: _ =>
      match (vpin.filter (fun b => decide (b.ts ≤ t))).getLast? with
      | some b => some b.value
      | none => some e.value

/-- `latest_illiq` after consuming a list of rows, starting from a given
cache value: the last valid (present, nonzero) reading wins. -/
def illiqAfter (cache : Option ℚ) (rows : List TradeRow) : Option ℚ :=
  rows.foldl (fun acc r => updateIlliq acc r.illiq) cache

/-- The estimated price impact the code computes for a row, as a function
of the ILLIQ cache in force when the row is processed. -/
def impactFormula (cache : Option ℚ) (row : TradeRow) : ℚ :=
  match cache with
  | some l => if 0 < |row.tradevolume| then l * |row.tradevolume| / 1000000 else 0
  | none => 0

instance {ε α : Type} [DecidableEq ε] [DecidableEq α] :
    DecidableEq (Except ε α) := fun a b =>
  match a, b with
  | .ok x, .ok y =>
      if h : x = y then .isTrue (by rw [h])
      else .isFalse (by intro hc; cases hc; exact h rfl)
  | .error x, .error y =>
      if h : x = y then .isTrue (by rw [h])
      else .isFalse (by intro hc; cases hc; exact h rfl)
  | .ok _, .error _ => .isFalse (by intro hc; cases hc)
  | .error _, .ok _ => .isFalse (by intro hc; cases hc)

/-! ## Invariant predicates for the bucketing pass -/

/-- A bucket emitted by the bucket-close path: it is filled to the bucket
size exactly, its net volume cannot exceed its absolute volume, and its
imbalance is the recorded formula. -/
def GoodBucket (bucketSize : ℚ) (b : Bucket) : Prop :=
  b.absVolume = bucketSize ∧ |b.netVolume| ≤ bucketSize ∧
    b.orderImbalance = |b.netVolume| / bucketSize

/-- Loop invariant of the streaming pass: the open bucket is strictly
below the threshold, its net volume is dominated by its absolute volume,
and every already-emitted bucket is a full bucket. -/
def AggInv (bucketSize : ℚ) (st : AggState) : Prop :=
  0 ≤ st.currentAbs ∧ st.currentAbs < bucketSize ∧
    |st.currentNet| ≤ st.currentAbs ∧ ∀ b ∈ st.buckets, GoodBucket bucketSize b

/-! ## Concrete instances used by the per-claim evaluations and witnesses -/

/-- A single trade of signed volume +60 against bucket size 50:
the minimal input on which the code splits a trade across two buckets. -/
def c1Trades : List ℚ := [60]

/-- What the code emits on `c1Trades` with bucket size 50: the second
fragment receives net volume `10 * (10/60) = 5/3`, not `10`. -/
def c1Buckets : List Bucket := [⟨50, 50, 1⟩, ⟨10, 5/3, 1/30⟩]

/-- The spec's §8 concrete scenario tape `[+30, -20, +60]`. -/
def c3Trades : List ℚ := [30, -20, 60]

/-- What the code emits on `c3Trades` with bucket size 50. -/
def c3Buckets : List Bucket := [⟨50, 10, 1/5⟩, ⟨50, 50, 1⟩, ⟨10, 5/3, 1/30⟩]

/-- A one-bucket VPIN table whose single bucket closes at time 10. -/
def c2Vpin : List VpinEntry := [⟨10, 1/2⟩]

/-- Two positive-volume trades at times 1 and 2, both strictly before the
first bucket's closing time 10; the first carries a valid ILLIQ reading
so the second has a nonzero expected impermanent loss. -/
def c2Rows : List TradeRow := [⟨1, 1, 1, some 5⟩, ⟨2, 1, 1000000, none⟩]

/-- Rows for the C4 counterexample: the only valid ILLIQ observation of
the tape sits on the middle, zero-volume row. -/
def c4Rows : List TradeRow := [⟨1, 1, 1, none⟩, ⟨2, 1, 0, some 7⟩, ⟨3, 1, 1, none⟩]

/-- Witness state for the C4 amended claim: some positive-volume row has
already run (`invExposure` assigned), no valid ILLIQ seen yet. -/
def c4WSt : FeeState := ⟨[], none, none, some (2/5)⟩

/-- Witness row for the C4 amended claim: zero volume, valid observation. -/
def c4WRow : TradeRow := ⟨5, 1, 0, some 7⟩

/-- Witness state for the C5 scenario: `latest_valid_impact = 1,000,000`
and chosen-window toxicity `0.3` at the cursor. -/
def c5St : FeeState := ⟨[], some (3/10), some 1000000, none⟩

/-- Witness trade for the C5 scenario: absolute volume 10. -/
def c5Row : TradeRow := ⟨0, 1, 10, none⟩

/-- Inventory model for the C5 scenario: exposure `0.4` at every price. -/
def c5Exp : ℚ → ℚ := fun _ => 2/5

/-- Rows for the C6 witness: a valid observation on the first row, so the
second row's fee must use it while the first row's fee must not. -/
def c6Rows : List TradeRow := [⟨1, 1, 1, some 7⟩, ⟨2, 1, 1, none⟩]

/-- Trades for the C7 witness (same shape as the spec scenario). -/
def c7Trades : List ℚ := [30, -20, 60]

/-- Imbalance stream for the C8 witness. -/
def c8Imbs : List ℚ := [1/2, 1/4]

/-- Rows for the C9 witness: nonzero `tradevolume` but a zero
`abs_tradevolume` column, making the computed bucket size zero. -/
def c9Rows : List VpinRow := [⟨0, 5, 0⟩]

/-- VPIN table for the C2 amended witness: buckets closing at 10 and 20. -/
def c2WVpin : List VpinEntry := [⟨10, 1/2⟩, ⟨20, 3/4⟩]

/-- Rows for the C2 amended witness: trades before the first close,
between the closes, and after the last close. -/
def c2WRows : List TradeRow := [⟨5, 1, 1, none⟩, ⟨15, 1, 1, none⟩, ⟨25, 1, 1, none⟩]

/-- Full-bucket list of the C7 witness run. -/
def c7Buckets : List Bucket := [⟨50, 10, 1/5⟩, ⟨50, 50, 1⟩, ⟨10, 5/3, 1/30⟩]

/-- Fee state after the C5 witness step. -/
def c5StOut : FeeState := ⟨[], some (3/10), some 1000000, some (2/5)⟩

/-- Emitted row of the C5 witness step. -/
def c5Out : FeeRow :=
  ⟨0, 1, 10, 10, none, some (3/10), 10, 4, 1/200, 6/5, 12, 2401/200, 2401/2000, 2/5⟩

/-- Emitted rows of the C6 witness run. -/
def c6Outs : List FeeRow :=
  [⟨1, 1, 1, 1, some 7, none, 0, 0, 1/2000, 0, 0, 1/2000, 1/2000, 1⟩,
   ⟨2, 1, 1, 1, none, none, 7/1000000, 7/1000000, 1/2000, 0, 0, 1/2000, 1/2000, 1⟩]

/-- Emitted rows of the C2 amended witness run. -/
def c2WOuts : List FeeRow :=
  [⟨5, 1, 1, 1, none, some (1/2), 0, 0, 1/2000, 0, 0, 1/2000, 1/2000, 1⟩,
   ⟨15, 1, 1, 1, none, some (1/2), 0, 0, 1/2000, 0, 0, 1/2000, 1/2000, 1⟩,
   ⟨25, 1, 1, 1, none, some (3/4), 0, 0, 1/2000, 0, 0, 1/2000, 1/2000, 1⟩]

/-- Fee state after the C4 amended witness step: the cache now holds the
zero-volume row's observation. -/
def c4WStOut : FeeState := ⟨[], none, some 7, some (2/5)⟩

/-- Emitted row of the C4 amended witness step. -/
def c4WOut : FeeRow := ⟨5, 1, 0, 0, some 7, none, 0, 0, 0, 0, 0, 0, 0, 2/5⟩

/-- Witness state for C10: positive-volume row already processed. -/
def c10WSt : FeeState := ⟨[], none, none, some (2/5)⟩

/-- Witness zero-volume row for C10. -/
def c10WRow : TradeRow := ⟨5, 1, 0, none⟩

/-- Fee state after the C10 witness step. -/
def c10WStOut : FeeState := ⟨[], none, none, some (2/5)⟩

/-- Emitted row of the C10 witness step: it reports the carried
exposure. -/
def c10WOut : FeeRow := ⟨5, 1, 0, 0, none, none, 0, 0, 0, 0, 0, 0, 0, 2/5⟩

/-- First row of the C10 first-row-zero-volume witness run. -/
def c10ZRow : TradeRow := ⟨1, 3, 0, none⟩

/-! ## Characterization lemmas for one fee-loop iteration -/

lemma vpinFeeOf_zero (o : Option ℚ) : vpinFeeOf o 0 = 0 := by
  cases o <;> simp [vpinFeeOf]

/-- A positive-volume row with an available prior impact reading. -/
lemma feeStep_pos_some (invExp : ℚ → ℚ) (pct : ℚ) (st : FeeState) (row : TradeRow)
    (l : ℚ) (htv : 0 < |row.tradevolume|) (hl : st.latestIlliq = some l) :
    feeStep invExp pct st row = .ok
      ({ pending := (advanceCursor st.pending st.latestVpin row.ts).1,
         latestVpin := (advanceCursor st.pending st.latestVpin row.ts).2,
         latestIlliq := updateIlliq st.latestIlliq row.illiq,
         invExposure := some (invExp row.price) },
       { ts := row.ts, price := row.price, tradeVolume := row.tradevolume,
         absTradeVolume := |row.tradevolume|, illiq := validIlliq row.illiq,
         vpinUsed := (advanceCursor st.pending st.latestVpin row.ts).2,
         estimatedPriceImpact := l * |row.tradevolume| / 1000000,
         expectedImpermanentLoss := l * |row.tradevolume| / 1000000 * invExp row.price,
         baseFee := pct / 100 * |row.tradevolume|,
         vpinFeePctOfVolume := vpinFeeOf (advanceCursor st.pending st.latestVpin row.ts).2
           (l * |row.tradevolume| / 1000000 * invExp row.price),
         vpinFeeAbsolute := vpinFeeOf (advanceCursor st.pending st.latestVpin row.ts).2
           (l * |row.tradevolume| / 1000000 * invExp row.price) * |row.tradevolume|,
         totalFee := pct / 100 * |row.tradevolume| +
           vpinFeeOf (advanceCursor st.pending st.latestVpin row.ts).2
             (l * |row.tradevolume| / 1000000 * invExp row.price) * |row.tradevolume|,
         feePctOfVolume := (pct / 100 * |row.tradevolume| +
           vpinFeeOf (advanceCursor st.pending st.latestVpin row.ts).2
             (l * |row.tradevolume| / 1000000 * invExp row.price) * |row.tradevolume|) /
             |row.tradevolume|,
         inventoryExposure := invExp row.price }) := by
  simp [feeStep, htv, hl]

/-- A positive-volume row with no prior impact reading available. -/
lemma feeStep_pos_none (invExp : ℚ → ℚ) (pct : ℚ) (st : FeeState) (row : TradeRow)
    (htv : 0 < |row.tradevolume|) (hl : st.latestIlliq = none) :
    feeStep invExp pct st row = .ok
      ({ pending := (advanceCursor st.pending st.latestVpin row.ts).1,
         latestVpin := (advanceCursor st.pending st.latestVpin row.ts).2,
         latestIlliq := updateIlliq st.latestIlliq row.illiq,
         invExposure := some (invExp row.price) },
       { ts := row.ts, price := row.price, tradeVolume := row.tradevolume,
         absTradeVolume := |row.tradevolume|, illiq := validIlliq row.illiq,
         vpinUsed := (advanceCursor st.pending st.latestVpin row.ts).2,
         estimatedPriceImpact := 0, expectedImpermanentLoss := 0,
         baseFee := pct / 100 * |row.tradevolume|,
         vpinFeePctOfVolume := 0, vpinFeeAbsolute := 0,
         totalFee := pct / 100 * |row.tradevolume| + 0,
         feePctOfVolume := (pct / 100 * |row.tradevolume| + 0) / |row.tradevolume|,
         inventoryExposure := invExp row.price }) := by
  simp [feeStep, htv, hl, vpinFeeOf_zero]

/-- A zero-volume row after `inventory_exposure` has been assigned at
least once: all fee fields are zero, the cursor still advances, and the
ILLIQ cache is still updated from the row's own reading. -/
lemma feeStep_zero (invExp : ℚ → ℚ) (pct : ℚ) (st : FeeState) (row : TradeRow)
    (e : ℚ) (htv : row.tradevolume = 0) (hie : st.invExposure = some e) :
    feeStep invExp pct st row = .ok
      ({ pending := (advanceCursor st.pending st.latestVpin row.ts).1,
         latestVpin := (advanceCursor st.pending st.latestVpin row.ts).2,
         latestIlliq := updateIlliq st.latestIlliq row.illiq,
         invExposure := some e },
       { ts := row.ts, price := row.price, tradeVolume := row.tradevolume,
         absTradeVolume := 0, illiq := validIlliq row.illiq,
         vpinUsed := (advanceCursor st.pending st.latestVpin row.ts).2,
         estimatedPriceImpact := 0, expectedImpermanentLoss := 0,
         baseFee := 0, vpinFeePctOfVolume := 0, vpinFeeAbsolute := 0,
         totalFee := 0, feePctOfVolume := 0, inventoryExposure := e }) := by
  have h0 : ¬ 0 < |row.tradevolume| := by rw [htv, abs_zero]; exact lt_irrefl 0
  simp [feeStep, h0, hie, vpinFeeOf_zero, htv]

/-- A zero-volume row before any positive-volume row: building the
results dict raises `UnboundLocalError`. -/
lemma feeStep_zero_unbound (invExp : ℚ → ℚ) (pct : ℚ) (st : FeeState) (row : TradeRow)
    (htv : row.tradevolume = 0) (hie : st.invExposure = none) :
    feeStep invExp pct st row = .error .unboundInventoryExposure := by
  have h0 : ¬ 0 < |row.tradevolume| := by rw [htv, abs_zero]; exact lt_irrefl 0
  simp [feeStep, h0, hie]

/-- Whenever an iteration succeeds, the new cursor is the advanced one,
the reported toxicity is the advanced cursor's value, the new ILLIQ cache
is the post-update one, and the estimated price impact was computed from
the *prior* cache. -/
lemma feeStep_ok_state (invExp : ℚ → ℚ) (pct : ℚ) (st : FeeState) (row : TradeRow)
    (st' : FeeState) (out : FeeRow)
    (h : feeStep invExp pct st row = .ok (st', out)) :
    st'.pending = (advanceCursor st.pending st.latestVpin row.ts).1 ∧
    st'.latestVpin = (advanceCursor st.pending st.latestVpin row.ts).2 ∧
    st'.latestIlliq = updateIlliq st.latestIlliq row.illiq ∧
    out.vpinUsed = (advanceCursor st.pending st.latestVpin row.ts).2 ∧
    out.estimatedPriceImpact = impactFormula st.latestIlliq row := by
  by_cases htv : 0 < |row.tradevolume|
  · rcases hl : st.latestIlliq with _ | l
    · rw [feeStep_pos_none invExp pct st row htv hl] at h
      obtain ⟨h1, h2⟩ := Prod.mk.injEq .. ▸ (Except.ok.injEq .. ▸ h)
      subst h1; subst h2
      simp [impactFormula, hl]
    · rw [feeStep_pos_some invExp pct st row l htv hl] at h
      obtain ⟨h1, h2⟩ := Prod.mk.injEq .. ▸ (Except.ok.injEq .. ▸ h)
      subst h1; subst h2
      simp [impactFormula, hl, htv]
  · have htv0 : row.tradevolume = 0 := by
      by_contra hne
      exact htv (abs_pos.mpr hne)
    rcases hie : st.invExposure with _ | e
    · rw [feeStep_zero_unbound invExp pct st row htv0 hie] at h
      cases h
    · rw [feeStep_zero invExp pct st row e htv0 hie] at h
      obtain ⟨h1, h2⟩ := Prod.mk.injEq .. ▸ (Except.ok.injEq .. ▸ h)
      subst h1; subst h2
      simp [impactFormula, htv]
      rcases st.latestIlliq with _ | l
      · simp
      · simp [htv]

/-! ## Cursor lemmas -/

/-- Advancing the cursor twice with nondecreasing target times is the
same as advancing once to the later time. -/
lemma advanceCursor_trans (p : List VpinEntry) (l : Option ℚ) (t₁ t₂ : ℤ)
    (h : t₁ ≤ t₂) :
    advanceCursor (advanceCursor p l t₁).1 (advanceCursor p l t₁).2 t₂ =
      advanceCursor p l t₂ := by
  induction p generalizing l with
  | nil => simp [advanceCursor]
  | cons e rest ih =>
      by_cases he : e.ts ≤ t₁
      · have he₂ : e.ts ≤ t₂ := he.trans h
        simp only [advanceCursor, if_pos he, if_pos he₂]
        exact ih (some e.value)
      · simp only [advanceCursor, if_neg he]

/-- `getLast?` of a cons ignores the head when the tail is nonempty. -/
lemma getLast?_cons_of_ne_nil {α : Type} (a : α) (l : List α) (h : l ≠ []) :
    (a :: l).getLast? = l.getLast? := by
  cases l with
  | nil => exact absurd rfl h
  | cons b bs => simp [List.getLast?]

/-- Dropping the head of the lookup table does not change the lookup
when the second entry's timestamp already qualifies. -/
lemma vpinLookup_cons_cons (e f : VpinEntry) (rs : List VpinEntry) (t : ℤ)
    (hf : f.ts ≤ t) :
    vpinLookup (e :: f :: rs) t = vpinLookup (f :: rs) t := by
  have hmem : f ∈ (f :: rs).filter (fun b => decide (b.ts ≤ t)) :=
    List.mem_filter.mpr ⟨List.mem_cons_self f rs, by simpa using hf⟩
  have hne : (f :: rs).filter (fun b => decide (b.ts ≤ t)) ≠ [] :=
    List.ne_nil_of_mem hmem
  obtain ⟨b, hb⟩ :
      ∃ b, ((f :: rs).filter (fun x => decide (x.ts ≤ t))).getLast? = some b := by
    cases hl : ((f :: rs).filter (fun x => decide (x.ts ≤ t))).getLast? with
    | none => exact absurd (List.getLast?_eq_none_iff.mp hl) hne
    | some b => exact ⟨b, rfl⟩
  simp only [vpinLookup]
  rw [List.filter_cons]
  by_cases he : e.ts ≤ t
  · rw [decide_eq_true he, if_pos rfl]
    rw [getLast?_cons_of_ne_nil _ _ hne, hb]
  · rw [decide_eq_false he]
    simp only [Bool.false_eq_true, if_false]
    rw [hb]

/-- Closed form of the cursor: starting from the initial cursor position
(index 0, `latest_vpin = vpin_values[0]`), advancing to time `t` lands on
the last bucket whose closing timestamp is `≤ t` — except that for `t`
before the first closing timestamp the cursor stays on the *first*
bucket. -/
lemma advanceCursor_init (vpin : List VpinEntry) (t : ℤ)
    (hs : (vpin.map VpinEntry.ts).Chain' (· ≤ ·)) :
    (advanceCursor (initCursor vpin).1 (initCursor vpin).2 t).2 =
      vpinLookup vpin t := by
  induction vpin with
  | nil => simp [initCursor, advanceCursor, vpinLookup]
  | cons e rest ih =>
      cases rest with
      | nil =>
          by_cases he : e.ts ≤ t <;>
            simp [initCursor, advanceCursor, vpinLookup, he]
      | cons f rs =>
          by_cases hf : f.ts ≤ t
          · have hstep :
                (advanceCursor (initCursor (e :: f :: rs)).1
                  (initCursor (e :: f :: rs)).2 t).2 =
                (advanceCursor (initCursor (f :: rs)).1
                  (initCursor (f :: rs)).2 t).2 := by
              simp [initCursor, advanceCursor, hf]
            rw [hstep, ih (by simpa using hs.tail),
              vpinLookup_cons_cons e f rs t hf]
          · have hall : ∀ g ∈ rs, ¬ g.ts ≤ t := by
              intro g hg hgle
              have hp : List.Pairwise (· ≤ ·) ((e :: f :: rs).map VpinEntry.ts) :=
                List.chain'_iff_pairwise.mp hs
              have hfg : f.ts ≤ g.ts := by
                have h1 := (List.pairwise_cons.mp hp).2
                have h2 := (List.pairwise_cons.mp h1).1
                exact h2 g.ts (List.mem_map_of_mem VpinEntry.ts hg)
              exact hf (hfg.trans hgle)
            have hfe : (f :: rs).filter (fun b => decide (b.ts ≤ t)) = [] := by
              rw [List.filter_eq_nil_iff]
              intro g hg
              rcases List.mem_cons.mp hg with h1 | h2
              · subst h1; simpa using hf
              · simpa using hall g h2
            have hLHS :
                (advanceCursor (initCursor (e :: f :: rs)).1
                  (initCursor (e :: f :: rs)).2 t).2 = some e.value := by
              simp [initCursor, advanceCursor, hf]
            rw [hLHS]
            simp only [vpinLookup, List.filter_cons, hfe]
            by_cases he : e.ts ≤ t <;> simp [he]

/-! ## Run-level lemmas for the fee loop -/

/-- Inversion of one successful loop iteration. -/
lemma runFeesFrom_cons_ok (invExp : ℚ → ℚ) (pct : ℚ) (st : FeeState)
    (row : TradeRow) (rest : List TradeRow) (outs : List FeeRow)
    (h : runFeesFrom invExp pct st (row :: rest) = .ok outs) :
    ∃ st' out outs', feeStep invExp pct st row = .ok (st', out) ∧
      runFeesFrom invExp pct st' rest = .ok outs' ∧ outs = out :: outs' := by
  rw [runFeesFrom] at h
  split at h
  · cases h
  · rename_i st' out heq
    split at h
    · cases h
    · rename_i outs' heq2
      cases h
      exact ⟨st', out, outs', heq, heq2, rfl⟩

/-- A successful run emits exactly one output row per input row. -/
lemma runFeesFrom_length (invExp : ℚ → ℚ) (pct : ℚ) :
    ∀ (rows : List TradeRow) (st : FeeState) (outs : List FeeRow),
      runFeesFrom invExp pct st rows = .ok outs → outs.length = rows.length := by
  intro rows
  induction rows with
  | nil => intro st outs h; cases h; rfl
  | cons row rest ih =>
      intro st outs h
      obtain ⟨st', out, outs', _, hrest, houts⟩ :=
        runFeesFrom_cons_ok invExp pct st row rest outs h
      subst houts
      simp [ih st' outs' hrest]

/-- Every successful iteration's estimated price impact is computed from
the ILLIQ cache as updated by the strictly earlier rows only. -/
lemma runFeesFrom_impact (invExp : ℚ → ℚ) (pct : ℚ) :
    ∀ (rows : List TradeRow) (st : FeeState) (outs : List FeeRow),
      runFeesFrom invExp pct st rows = .ok outs →
      ∀ i (hi : i < rows.length) (ho : i < outs.length),
        (outs.get ⟨i, ho⟩).estimatedPriceImpact =
          impactFormula (illiqAfter st.latestIlliq (rows.take i)) (rows.get ⟨i, hi⟩) := by
  intro rows
  induction rows with
  | nil => intro st outs _ i hi; exact absurd hi (by simp)
  | cons row rest ih =>
      intro st outs h i hi ho
      obtain ⟨st', out, outs', hstep, hrest, houts⟩ :=
        runFeesFrom_cons_ok invExp pct st row rest outs h
      subst houts
      obtain ⟨_, _, hcache, _, himpact⟩ :=
        feeStep_ok_state invExp pct st row st' out hstep
      cases i with
      | zero => simpa [illiqAfter] using himpact
      | succ j =>
          have hj := ih st' outs' hrest j (by simpa using hi) (by simpa using ho)
          have hcc : illiqAfter st.latestIlliq (row :: rest.take j) =
              illiqAfter st'.latestIlliq (rest.take j) := by
            simp [illiqAfter, hcache]
          simp only [List.take_succ_cons, List.get_cons_succ, List.length_cons,
            hcc]
          simpa using hj

/-- Every successful iteration's reported toxicity is the closed-form
cursor lookup at the row's own timestamp, provided both the VPIN table
and the trade tape are sorted by timestamp. -/
lemma runFeesFrom_vpinUsed (invExp : ℚ → ℚ) (pct : ℚ) (vpin : List VpinEntry)
    (hs : (vpin.map VpinEntry.ts).Chain' (· ≤ ·)) :
    ∀ (rows : List TradeRow) (st : FeeState) (outs : List FeeRow),
      (rows.map TradeRow.ts).Chain' (· ≤ ·) →
      ((st.pending = (initCursor vpin).1 ∧ st.latestVpin = (initCursor vpin).2) ∨
        (∃ t₀, (∀ r ∈ rows, t₀ ≤ r.ts) ∧
          st.pending = (advanceCursor (initCursor vpin).1 (initCursor vpin).2 t₀).1 ∧
          st.latestVpin = (advanceCursor (initCursor vpin).1 (initCursor vpin).2 t₀).2)) →
      runFeesFrom invExp pct st rows = .ok outs →
      ∀ i (hi : i < rows.length) (ho : i < outs.length),
        (outs.get ⟨i, ho⟩).vpinUsed = vpinLookup vpin (rows.get ⟨i, hi⟩).ts := by
  intro rows
  induction rows with
  | nil => intro st outs _ _ _ i hi; exact absurd hi (by simp)
  | cons row rest ih =>
      intro st outs hchain hinv h i hi ho
      obtain ⟨st', out, outs', hstep, hrest, houts⟩ :=
        runFeesFrom_cons_ok invExp pct st row rest outs h
      subst houts
      obtain ⟨hp, hv, _, hused, _⟩ :=
        feeStep_ok_state invExp pct st row st' out hstep
      have hcur : advanceCursor st.pending st.latestVpin row.ts =
          advanceCursor (initCursor vpin).1 (initCursor vpin).2 row.ts := by
        rcases hinv with ⟨h1, h2⟩ | ⟨t₀, ht₀, h1, h2⟩
        · rw [h1, h2]
        · rw [h1, h2]
          exact advanceCursor_trans (initCursor vpin).1 (initCursor vpin).2
            t₀ row.ts (ht₀ row (List.mem_cons_self row rest))
      have hrest_le : ∀ r ∈ rest, row.ts ≤ r.ts := by
        intro r hr
        have hpw : List.Pairwise (· ≤ ·) ((row :: rest).map TradeRow.ts) :=
          List.chain'_iff_pairwise.mp hchain
        exact (List.pairwise_cons.mp hpw).1 r.ts
          (List.mem_map_of_mem TradeRow.ts hr)
      cases i with
      | zero =>
          have hz : out.vpinUsed = vpinLookup vpin row.ts := by
            rw [hused, hcur]
            exact advanceCursor_init vpin row.ts hs
          simpa using hz
      | succ j =>
          have hinv' : (st'.pending = (initCursor vpin).1 ∧
              st'.latestVpin = (initCursor vpin).2) ∨
              (∃ t₀, (∀ r ∈ rest, t₀ ≤ r.ts) ∧
                st'.pending =
                  (advanceCursor (initCursor vpin).1 (initCursor vpin).2 t₀).1 ∧
                st'.latestVpin =
                  (advanceCursor (initCursor vpin).1 (initCursor vpin).2 t₀).2) := by
            refine Or.inr ⟨row.ts, hrest_le, ?_, ?_⟩
            · rw [hp, hcur]
            · rw [hv, hcur]
          have hj := ih st' outs' (by simpa using hchain.tail) hinv' hrest
            j (by simpa using hi) (by simpa using ho)
          simpa using hj

/-! ## Invariant lemmas for the bucketing pass -/

/-- `closeBucket` with a nonzero bucket size. -/
lemma closeBucket_pos (bucketSize : ℚ) (st : AggState) (hB : bucketSize ≠ 0) :
    closeBucket bucketSize st =
      .ok ({ currentAbs := 0, currentNet := 0,
             buckets := st.buckets ++
               [⟨st.currentAbs, st.currentNet, |st.currentNet| / bucketSize⟩] } :
        AggState) := by
  simp [closeBucket, hB]

/-- The filling loop preserves the streaming invariant: all buckets it
emits are full buckets, and the open bucket keeps its net volume
dominated by its absolute volume. -/
lemma distributeTrade_inv (bucketSize absTrade : ℚ) (hB : 0 < bucketSize) :
    ∀ (fuel : ℕ) (remaining remainingNet : ℚ) (st st' : AggState),
      0 ≤ remaining → remaining ≤ absTrade → |remainingNet| ≤ absTrade →
      AggInv bucketSize st →
      distributeTrade bucketSize absTrade fuel remaining remainingNet st = .ok st' →
      AggInv bucketSize st' := by
  intro fuel
  induction fuel with
  | zero =>
      intro remaining remainingNet st st' _ _ _ hinv h
      rw [distributeTrade] at h
      split at h
      · cases h
      · cases h; exact hinv
  | succ n ih =>
      intro remaining remainingNet st st' hr0 hra hrn hinv h
      rw [distributeTrade] at h
      split at h
      · rename_i hrem
        dsimp only at h
        obtain ⟨hc0, hcB, hcn, hbk⟩ := hinv
        have habs : 0 < absTrade := lt_of_lt_of_le hrem hra
        set volumeToAdd := min remaining (bucketSize - st.currentAbs) with hvta
        have hvta0 : 0 < volumeToAdd := lt_min hrem (by linarith)
        have hvta_rem : volumeToAdd ≤ remaining := min_le_left _ _
        have hvta_room : volumeToAdd ≤ bucketSize - st.currentAbs := min_le_right _ _
        have hprop0 : 0 ≤ volumeToAdd / absTrade := div_nonneg hvta0.le habs.le
        have hprop1 : volumeToAdd / absTrade ≤ 1 :=
          (div_le_one habs).mpr (hvta_rem.trans hra)
        have hnetAdd : |remainingNet * (volumeToAdd / absTrade)| ≤ volumeToAdd := by
          rw [abs_mul, abs_of_nonneg hprop0]
          calc |remainingNet| * (volumeToAdd / absTrade)
              ≤ absTrade * (volumeToAdd / absTrade) :=
                mul_le_mul_of_nonneg_right hrn hprop0
            _ = volumeToAdd := by
                field_simp
        have hnewnet : |st.currentNet + remainingNet * (volumeToAdd / absTrade)| ≤
            st.currentAbs + volumeToAdd :=
          (abs_add _ _).trans (add_le_add hcn hnetAdd)
        have hremNet' : |remainingNet - remainingNet * (volumeToAdd / absTrade)| ≤
            absTrade := by
          have hfactor : remainingNet - remainingNet * (volumeToAdd / absTrade) =
              remainingNet * (1 - volumeToAdd / absTrade) := by ring
          rw [hfactor, abs_mul,
            abs_of_nonneg (show (0:ℚ) ≤ 1 - volumeToAdd / absTrade by linarith)]
          calc |remainingNet| * (1 - volumeToAdd / absTrade)
              ≤ absTrade * 1 :=
                mul_le_mul hrn (by linarith) (by linarith) habs.le
            _ = absTrade := mul_one _
        split at h
        · rename_i hclose
          have heq : st.currentAbs + volumeToAdd = bucketSize := by
            have hle : st.currentAbs + volumeToAdd ≤ bucketSize := by linarith
            linarith [hclose]
          rw [closeBucket_pos bucketSize _ (ne_of_gt hB)] at h
          dsimp only at h
          refine ih (remaining - volumeToAdd)
            (remainingNet - remainingNet * (volumeToAdd / absTrade)) _ st'
            (by linarith) (by linarith) hremNet' ?_ h
          refine ⟨le_refl 0, hB, by simp, ?_⟩
          intro b hb
          rcases List.mem_append.mp hb with hb1 | hb2
          · exact hbk b hb1
          · rcases List.mem_singleton.mp hb2 with rfl
            refine ⟨heq, ?_, rfl⟩
            calc |st.currentNet + remainingNet * (volumeToAdd / absTrade)|
                ≤ st.currentAbs + volumeToAdd := hnewnet
              _ = bucketSize := heq
        · rename_i hopen
          refine ih (remaining - volumeToAdd)
            (remainingNet - remainingNet * (volumeToAdd / absTrade)) _ st'
            (by linarith) (by linarith) hremNet' ?_ h
          exact ⟨by linarith, by simpa using lt_of_not_ge hopen, hnewnet, hbk⟩
      · cases h; exact hinv

/-- The trade loop preserves the streaming invariant. -/
lemma processTrades_inv (bucketSize : ℚ) (fuel : ℕ) (hB : 0 < bucketSize) :
    ∀ (trades : List ℚ) (st st' : AggState),
      AggInv bucketSize st →
      processTrades bucketSize fuel st trades = .ok st' →
      AggInv bucketSize st' := by
  intro trades
  induction trades with
  | nil =>
      intro st st' hinv h
      cases h; exact hinv
  | cons tv tvs ih =>
      intro st st' hinv h
      rw [processTrades] at h
      split at h
      · cases h
      · rename_i stm heq
        refine ih stm st' ?_ h
        exact distributeTrade_inv bucketSize |tv| hB fuel |tv| tv st stm
          (abs_nonneg tv) (le_refl _) (le_refl _) hinv heq

/-- Every bucket of a successful run, except possibly the last, is an
exactly-full bucket whose imbalance formula was computed at the close. -/
lemma calcBuckets_good (bucketSize : ℚ) (fuel : ℕ) (trades : List ℚ)
    (bs : List Bucket) (hB : 0 < bucketSize)
    (h : calcBuckets bucketSize fuel trades = .ok bs) :
    ∀ i (hi : i + 1 < bs.length), GoodBucket bucketSize (bs.get ⟨i, by omega⟩) := by
  rw [calcBuckets] at h
  split at h
  · cases h
  · rename_i st heq
    have hinv : AggInv bucketSize st :=
      processTrades_inv bucketSize fuel hB trades ⟨0, 0, []⟩ st
        ⟨le_refl 0, hB, by simp, by simp⟩ heq
    rw [flushFinalBucket] at h
    split at h
    · rw [if_neg (by exact ne_of_gt hB)] at h
      cases h
      intro i hi
      have hilen : i < st.buckets.length := by
        simpa using hi
      have hget : (st.buckets ++
          [(⟨st.currentAbs, st.currentNet, |st.currentNet| / bucketSize⟩ : Bucket)]).get
            ⟨i, by omega⟩ = st.buckets.get ⟨i, hilen⟩ :=
        List.get_append i hilen
      rw [hget]
      exact hinv.2.2.2 _ (st.buckets.get_mem i hilen)
    · cases h
      intro i hi
      exact hinv.2.2.2 _ (st.buckets.get_mem i (by omega))

/-! ## Rolling-window lemmas -/

/-- After consuming any imbalance sequence, a window's queue is exactly
the trailing `sampleLength`-suffix of the sequence: elements are evicted
strictly oldest-first and never reordered. -/
lemma windowFold_eq_drop (sampleLength : ℕ) (imbs : List ℚ) :
    windowFold sampleLength imbs = imbs.drop (imbs.length - sampleLength) := by
  induction imbs using List.reverseRecOn with
  | nil => simp [windowFold]
  | append_singleton l x ihl =>
      have hstep : windowFold sampleLength (l ++ [x]) =
          windowPush sampleLength (windowFold sampleLength l) x := by
        simp [windowFold, List.foldl_append]
      rw [hstep, ihl, windowPush]
      simp only [List.length_append, List.length_singleton]
      rcases Nat.eq_zero_or_pos sampleLength with h0 | hpos
      · subst h0
        rw [Nat.sub_zero, List.drop_length]
        have hr : (l ++ [x]).drop (l.length + 1 - 0) = [] :=
          List.drop_eq_nil_of_le (by simp)
        rw [hr]
        simp
      · by_cases hn : sampleLength ≤ l.length
        · have hAlen : (l.drop (l.length - sampleLength)).length = sampleLength := by
            rw [List.length_drop]
            omega
          have hcond : sampleLength < (l.drop (l.length - sampleLength)).length + 1 := by
            rw [hAlen]; omega
          rw [if_pos hcond]
          rw [List.drop_append_eq_append_drop, List.drop_drop,
            List.drop_append_eq_append_drop]
          have h2 : (1 : ℕ) - (l.drop (l.length - sampleLength)).length = 0 := by
            rw [hAlen]; omega
          have h3 : l.length + 1 - sampleLength - l.length = 0 := by omega
          rw [h2, h3]
          have h1 : l.length - sampleLength + 1 = l.length + 1 - sampleLength := by
            omega
          rw [h1]
        · have hcond : ¬ sampleLength < (l.drop (l.length - sampleLength)).length + 1 := by
            rw [List.length_drop]
            omega
          rw [if_neg hcond]
          have h4 : l.length - sampleLength = 0 := by omega
          have h5 : l.length + 1 - sampleLength = 0 := by omega
          rw [h4, h5]
          simp

/-! ## Zero bucket size -/

/-- With bucket size zero and at least one nonzero trade, the streaming
pass raises the division-by-zero at its first bucket close: `volumeToAdd`
is zero, the close condition `bucket_size <= current_bucket_abs_volume`
fires immediately, and the imbalance division aborts the run. -/
lemma calcBuckets_zero_size (fuel : ℕ) (hfuel : 0 < fuel) (tv : ℚ)
    (htv : tv ≠ 0) (tvs : List ℚ) :
    calcBuckets 0 fuel (tv :: tvs) = .error .divisionByZero := by
  obtain ⟨n, rfl⟩ : ∃ n, fuel = n + 1 := ⟨fuel - 1, by omega⟩
  have habs : 0 < |tv| := abs_pos.mpr htv
  have hmin : min |tv| ((0:ℚ) - 0) = 0 := by
    rw [sub_zero]
    exact min_eq_right (abs_nonneg tv)
  simp [calcBuckets, processTrades, processTrade, distributeTrade, habs, hmin,
    closeBucket]

/-! ## Claim theorems -/

/-- Claim C1 (claim refuted by the code; evaluation of the code at the
failing input): a single trade of signed volume `+60` against bucket size
`50` is split across two buckets.  The `take` amounts (the emitted
absolute volumes) sum to the trade's absolute volume `60` exactly, but
the signed net-volume fragments the code emits are `50` and `5/3`
(because `net_volume_to_add = remaining_net_volume * take /
abs_trade_volume` rescales the *remaining* net by a proportion of the
*original* volume), summing to `155/3 ≠ 60`; the second fragment is not
the same proportion of signed volume as of absolute volume. -/
theorem C1_net_split_not_conserving_eval :
    calcBuckets 50 10 c1Trades = .ok c1Buckets ∧
    (c1Buckets.map Bucket.absVolume).sum = 60 ∧
    (c1Buckets.map Bucket.netVolume).sum = 155/3 ∧
    ((155 : ℚ)/3) ≠ 60 :=
  ⟨by with_unfolding_all rfl, by with_unfolding_all rfl,
   by with_unfolding_all rfl, by norm_num⟩

/-- Claim C3 (claim refuted by the code; evaluation of the code at the
spec's own scenario): on the tape `[+30, -20, +60]` with bucket size
`50`, buckets 1 and 2 match the claim (`net = 10`, imbalance `0.2`;
`net = 50`, imbalance `1.0`), but the final partial bucket is emitted
with `net_volume = 5/3` and imbalance `1/30`, not `net = 10` and
imbalance `0.2`; no bucket record carries an explicit partial marker. -/
theorem C3_scenario_eval :
    calcBuckets 50 10 c3Trades = .ok c3Buckets ∧
    (c3Buckets.map Bucket.netVolume) = [10, 50, 5/3] ∧
    (c3Buckets.map Bucket.orderImbalance) = [1/5, 1, 1/30] ∧
    ((5 : ℚ)/3) ≠ 10 ∧ ((1 : ℚ)/30) ≠ 1/5 :=
  ⟨by with_unfolding_all rfl, by with_unfolding_all rfl,
   by with_unfolding_all rfl, by norm_num, by norm_num⟩

/-- Counterexample to claim C2: with a single bucket closing at time 10,
both trades (at times 1 and 2, strictly before that close) are priced
with that bucket's toxicity `1/2`, and the second trade receives the
nonzero toxicity fee fraction `5/2` — the claim's "treated as
0/unavailable before the first closing timestamp" is false, and the fee
depends on a bucket that closes strictly after the trade. -/
theorem C2_counterexample :
    (runFees (fun _ => 1) (1/20) c2Vpin c2Rows).map (List.map FeeRow.vpinUsed) =
      .ok [some (1/2), some (1/2)] ∧
    (runFees (fun _ => 1) (1/20) c2Vpin c2Rows).map
      (List.map FeeRow.vpinFeePctOfVolume) = .ok [0, 5/2] ∧
    c2Rows.map TradeRow.ts = [1, 2] ∧ c2Vpin.map VpinEntry.ts = [10] ∧
    ((5 : ℚ)/2) ≠ 0 :=
  ⟨by with_unfolding_all rfl, by with_unfolding_all rfl,
   by with_unfolding_all rfl, by with_unfolding_all rfl, by norm_num⟩

/-- Claim C2 as amended: for every trade of a successful fee run (with
the VPIN table and the trade tape sorted by timestamp), the toxicity used
is the chosen-window toxicity of the most recently closed bucket whose
closing timestamp is `≤` the trade's timestamp; for trades whose
timestamp precedes the first bucket's closing timestamp the *first*
bucket's toxicity is used (not 0), and toxicity is unavailable only when
there are no buckets at all — this is exactly `vpinLookup`. -/
theorem C2_amended_toxicity_cursor (invExp : ℚ → ℚ) (pct : ℚ)
    (vpin : List VpinEntry) (rows : List TradeRow) (outs : List FeeRow)
    (hs : (vpin.map VpinEntry.ts).Chain' (· ≤ ·))
    (hr : (rows.map TradeRow.ts).Chain' (· ≤ ·))
    (hok : runFees invExp pct vpin rows = .ok outs) :
    ∀ i (hi : i < rows.length) (ho : i < outs.length),
      (outs.get ⟨i, ho⟩).vpinUsed = vpinLookup vpin (rows.get ⟨i, hi⟩).ts :=
  runFeesFrom_vpinUsed invExp pct vpin hs rows (initFeeState vpin) outs hr
    (Or.inl ⟨rfl, rfl⟩) hok

/-- Witness for the amended C2 at a concrete run: trade at time 5 (before
the first close at 10) uses the first bucket's value `1/2`; trade at time
25 uses the last closed bucket's value `3/4`. -/
theorem C2_amended_witness :
    (c2WOuts.get ⟨0, by decide⟩).vpinUsed = some (1/2) ∧
    (c2WOuts.get ⟨2, by decide⟩).vpinUsed = some (3/4) := by
  have hok : runFees (fun _ => 1) (1/20) c2WVpin c2WRows = .ok c2WOuts := by
    with_unfolding_all rfl
  have hsv : (c2WVpin.map VpinEntry.ts).Chain' (· ≤ ·) := by
    simp [c2WVpin]
  have hsr : (c2WRows.map TradeRow.ts).Chain' (· ≤ ·) := by
    simp [c2WRows]
  have h0 := C2_amended_toxicity_cursor (fun _ => 1) (1/20) c2WVpin c2WRows c2WOuts
    hsv hsr hok 0 (by decide) (by decide)
  have h2 := C2_amended_toxicity_cursor (fun _ => 1) (1/20) c2WVpin c2WRows c2WOuts
    hsv hsr hok 2 (by decide) (by decide)
  exact ⟨by rw [h0]; with_unfolding_all rfl, by rw [h2]; with_unfolding_all rfl⟩

/-- Counterexample to claim C4: the only valid impact observation of the
tape sits on the middle, zero-volume row, yet the third row's estimated
price impact is `7/1000000 ≠ 0` — so processing the zero-volume trade
*did* mutate `latest_valid_impact` (the cache update is unconditional on
trade volume). -/
theorem C4_counterexample :
    (runFees (fun _ => 1) (1/20) [] c4Rows).map
      (List.map FeeRow.estimatedPriceImpact) = .ok [0, 0, 7/1000000] ∧
    c4Rows.map TradeRow.tradevolume = [1, 0, 1] ∧
    c4Rows.map TradeRow.illiq = [none, some 7, none] ∧
    ((7 : ℚ)/1000000) ≠ 0 :=
  ⟨by with_unfolding_all rfl, by with_unfolding_all rfl,
   by with_unfolding_all rfl, by norm_num⟩

/-- Claim C4 as amended: a zero-volume trade produces all-zero fee
fields, still advances the toxicity cursor by timestamp, and reports the
carried inventory exposure — but the impact cache *is* updated from the
trade's own row whenever it carries a valid (present, nonzero)
observation, exactly as for any other row (`updateIlliq`). -/
theorem C4_amended_zero_volume (invExp : ℚ → ℚ) (pct : ℚ) (st : FeeState)
    (row : TradeRow) (e : ℚ) (htv : row.tradevolume = 0)
    (hie : st.invExposure = some e) :
    feeStep invExp pct st row = .ok
      ({ pending := (advanceCursor st.pending st.latestVpin row.ts).1,
         latestVpin := (advanceCursor st.pending st.latestVpin row.ts).2,
         latestIlliq := updateIlliq st.latestIlliq row.illiq,
         invExposure := some e },
       { ts := row.ts, price := row.price, tradeVolume := row.tradevolume,
         absTradeVolume := 0, illiq := validIlliq row.illiq,
         vpinUsed := (advanceCursor st.pending st.latestVpin row.ts).2,
         estimatedPriceImpact := 0, expectedImpermanentLoss := 0,
         baseFee := 0, vpinFeePctOfVolume := 0, vpinFeeAbsolute := 0,
         totalFee := 0, feePctOfVolume := 0, inventoryExposure := e }) :=
  feeStep_zero invExp pct st row e htv hie

/-- Witness for the amended C4 at a concrete step: the zero-volume row
carrying the observation `7` leaves all fee fields zero yet moves the
cache from `none` to `some 7`. -/
theorem C4_amended_witness :
    feeStep (fun _ => 1) (1/20) c4WSt c4WRow = .ok (c4WStOut, c4WOut) ∧
    c4WSt.latestIlliq = none ∧ c4WStOut.latestIlliq = some 7 := by
  have h := C4_amended_zero_volume (fun _ => 1) (1/20) c4WSt c4WRow (2/5)
    rfl rfl
  refine ⟨?_, rfl, rfl⟩
  rw [h]
  with_unfolding_all rfl

/-- Claim C5: for a positive-volume trade with an available prior valid
impact observation `l` and post-advance toxicity `v`, the fee fields are
exactly: estimated impact `l * |volume| / 1_000_000`; expected IL
`impact * inventory_exposure(price)`; toxicity fee fraction
`expected_IL * v`; base fee `(base_fee_pct/100) * |volume|`; total fee
`base_fee + fraction * |volume|`; fee percentage `total / |volume|`. -/
theorem C5_fee_formulas (invExp : ℚ → ℚ) (pct : ℚ) (st : FeeState)
    (row : TradeRow) (l v : ℚ) (p' : List VpinEntry)
    (htv : 0 < |row.tradevolume|) (hl : st.latestIlliq = some l)
    (hv : advanceCursor st.pending st.latestVpin row.ts = (p', some v)) :
    feeStep invExp pct st row = .ok
      ({ pending := p', latestVpin := some v,
         latestIlliq := updateIlliq st.latestIlliq row.illiq,
         invExposure := some (invExp row.price) },
       { ts := row.ts, price := row.price, tradeVolume := row.tradevolume,
         absTradeVolume := |row.tradevolume|, illiq := validIlliq row.illiq,
         vpinUsed := some v,
         estimatedPriceImpact := l * |row.tradevolume| / 1000000,
         expectedImpermanentLoss :=
           l * |row.tradevolume| / 1000000 * invExp row.price,
         baseFee := pct / 100 * |row.tradevolume|,
         vpinFeePctOfVolume :=
           l * |row.tradevolume| / 1000000 * invExp row.price * v,
         vpinFeeAbsolute :=
           l * |row.tradevolume| / 1000000 * invExp row.price * v *
             |row.tradevolume|,
         totalFee := pct / 100 * |row.tradevolume| +
           l * |row.tradevolume| / 1000000 * invExp row.price * v *
             |row.tradevolume|,
         feePctOfVolume := (pct / 100 * |row.tradevolume| +
           l * |row.tradevolume| / 1000000 * invExp row.price * v *
             |row.tradevolume|) / |row.tradevolume|,
         inventoryExposure := invExp row.price }) := by
  rw [feeStep_pos_some invExp pct st row l htv hl, hv]
  simp [vpinFeeOf]

/-- Witness for C5 at the spec's §8 scenario: impact `1,000,000`, volume
`10`, exposure `0.4`, toxicity `0.3`, base rate `0.05%` give total fee
`12.005 = 2401/200`. -/
theorem C5_witness :
    feeStep c5Exp (1/20) c5St c5Row = .ok (c5StOut, c5Out) ∧
    c5Out.totalFee = 2401/200 := by
  have h := C5_fee_formulas c5Exp (1/20) c5St c5Row 1000000 (3/10) []
    (by with_unfolding_all decide) rfl rfl
  refine ⟨?_, rfl⟩
  rw [h]
  with_unfolding_all rfl

/-- Claim C6: in every successful fee run, the estimated price impact of
row `i` is computed from the last observation that was present and
nonzero on a *strictly earlier* row (`illiqAfter none (rows.take i)`):
the row's own observation never feeds its own fee, and observations that
are missing/null or exactly zero are skipped by the carry-forward without
raising an error. -/
theorem C6_use_prior_impact (invExp : ℚ → ℚ) (pct : ℚ) (vpin : List VpinEntry)
    (rows : List TradeRow) (outs : List FeeRow)
    (hok : runFees invExp pct vpin rows = .ok outs) :
    ∀ i (hi : i < rows.length) (ho : i < outs.length),
      (outs.get ⟨i, ho⟩).estimatedPriceImpact =
        impactFormula (illiqAfter none (rows.take i)) (rows.get ⟨i, hi⟩) := by
  intro i hi ho
  have h := runFeesFrom_impact invExp pct rows (initFeeState vpin) outs hok i hi ho
  simpa [initFeeState] using h

/-- Witness for C6 at a concrete run: the first row carries observation
`7` but its own impact is `0`; the second row's impact is
`7 * 1 / 1000000`. -/
theorem C6_witness :
    (c6Outs.get ⟨0, by decide⟩).estimatedPriceImpact = 0 ∧
    (c6Outs.get ⟨1, by decide⟩).estimatedPriceImpact = 7/1000000 := by
  have hok : runFees (fun _ => 1) (1/20) [] c6Rows = .ok c6Outs := by
    with_unfolding_all rfl
  have h0 := C6_use_prior_impact (fun _ => 1) (1/20) [] c6Rows c6Outs hok
    0 (by decide) (by decide)
  have h1 := C6_use_prior_impact (fun _ => 1) (1/20) [] c6Rows c6Outs hok
    1 (by decide) (by decide)
  exact ⟨by rw [h0]; with_unfolding_all rfl, by rw [h1]; with_unfolding_all rfl⟩

/-- Claim C7: in every successful bucketing run with a positive bucket
size, every emitted bucket except at most the last has
`abs_volume = bucket_size` exactly, and its order imbalance lies in
`[0, 1]`. -/
theorem C7_full_buckets (bucketSize : ℚ) (fuel : ℕ) (trades : List ℚ)
    (bs : List Bucket) (hB : 0 < bucketSize)
    (h : calcBuckets bucketSize fuel trades = .ok bs) :
    ∀ i (hi : i + 1 < bs.length),
      (bs.get ⟨i, by omega⟩).absVolume = bucketSize ∧
      0 ≤ (bs.get ⟨i, by omega⟩).orderImbalance ∧
      (bs.get ⟨i, by omega⟩).orderImbalance ≤ 1 := by
  intro i hi
  obtain ⟨habs, hnet, him⟩ := calcBuckets_good bucketSize fuel trades bs hB h i hi
  refine ⟨habs, ?_, ?_⟩
  · rw [him]
    exact div_nonneg (abs_nonneg _) hB.le
  · rw [him]
    exact (div_le_one hB).mpr hnet

/-- Witness for C7 at a concrete run. -/
theorem C7_witness :
    (c7Buckets.get ⟨0, by decide⟩).absVolume = 50 ∧
    0 ≤ (c7Buckets.get ⟨0, by decide⟩).orderImbalance ∧
    (c7Buckets.get ⟨0, by decide⟩).orderImbalance ≤ 1 := by
  have h : calcBuckets 50 10 c7Trades = .ok c7Buckets := by
    with_unfolding_all rfl
  exact C7_full_buckets 50 10 c7Trades c7Buckets (by norm_num) h 0 (by decide)

/-- Claim C8: for each of the three configured windows (50/250/350), the
queue after any imbalance stream holds at most the configured number of
values and is exactly the trailing suffix of the stream (oldest evicted
first); the reported toxicity equals the arithmetic mean of the queue's
current contents; and the queue is nonempty from the first bucket
onward. -/
theorem C8_toxicity_windows (imbs : List ℚ) (sampleLength : ℕ)
    (hn : sampleLength = vpinDailyLen ∨ sampleLength = vpin5dayLen ∨
      sampleLength = vpin7dayLen) :
    (windowFold sampleLength imbs).length ≤ sampleLength ∧
    windowFold sampleLength imbs = imbs.drop (imbs.length - sampleLength) ∧
    vpinValue (windowFold sampleLength imbs) =
      (imbs.drop (imbs.length - sampleLength)).sum /
        (imbs.drop (imbs.length - sampleLength)).length ∧
    (imbs ≠ [] → windowFold sampleLength imbs ≠ []) := by
  have hchar := windowFold_eq_drop sampleLength imbs
  have hpos : 0 < sampleLength := by
    rcases hn with h | h | h <;> subst h <;> decide
  refine ⟨?_, hchar, ?_, ?_⟩
  · rw [hchar, List.length_drop]
    omega
  · rw [hchar, vpinValue]
  · intro hne hcontra
    rw [hchar] at hcontra
    have hlen : imbs.length ≤ imbs.length - sampleLength :=
      List.drop_eq_nil_iff.mp hcontra
    have hne0 : imbs.length ≠ 0 := fun h0 => hne (List.length_eq_zero.mp h0)
    omega

/-- Witness for C8 at a concrete stream and the daily window. -/
theorem C8_witness :
    (windowFold vpinDailyLen c8Imbs).length ≤ vpinDailyLen ∧
    vpinValue (windowFold vpinDailyLen c8Imbs) = 3/8 := by
  obtain ⟨h1, _, h3, _⟩ := C8_toxicity_windows c8Imbs vpinDailyLen (Or.inl rfl)
  refine ⟨h1, ?_⟩
  rw [h3]
  with_unfolding_all rfl

/-- Counterexample to claim C9: on the empty trade tape the bucketing
pass does not abort at all — it runs (vacuously) and returns an empty
bucket list.  The code contains no validation before the streaming loop;
the eventual failure in the Python script arises only afterwards, in the
summary reporting. -/
theorem C9_counterexample :
    runCalcVpin 5 [] = .ok [] := by rfl

/-- Claim C9 as amended: the code performs no pre-stream validation.  An
empty tape streams vacuously and emits no buckets without aborting; with
a nonempty filtered tape whose computed bucket size is zero, the
streaming pass *begins* and aborts with a division-by-zero at the first
bucket close, emitting no buckets. -/
theorem C9_amended_zero_bucket (fuel : ℕ) (rows : List VpinRow) (r : VpinRow)
    (rest : List VpinRow)
    (hfil : rows.filter (fun x => decide (x.tradevolume ≠ 0)) = r :: rest)
    (havg : avgDailyVolume (rows.filter (fun x => decide (x.tradevolume ≠ 0))) = 0)
    (hfuel : 0 < fuel) :
    runCalcVpin fuel rows = .error .divisionByZero := by
  have hmem : r ∈ rows.filter (fun x => decide (x.tradevolume ≠ 0)) := by
    rw [hfil]
    exact List.mem_cons_self r rest
  have htv : r.tradevolume ≠ 0 := by
    have hd := (List.mem_filter.mp hmem).2
    simpa using hd
  rw [hfil] at havg
  rw [runCalcVpin]
  rw [hfil, havg, zero_div, List.map_cons]
  exact calcBuckets_zero_size fuel hfuel r.tradevolume htv _

/-- Witness for the amended C9: a row with nonzero `tradevolume` but zero
`abs_tradevolume` yields bucket size zero and the streaming
division-by-zero abort. -/
theorem C9_amended_witness :
    runCalcVpin 3 c9Rows = .error .divisionByZero :=
  C9_amended_zero_bucket 3 c9Rows ⟨0, 5, 0⟩ [] (by rfl)
    (by with_unfolding_all rfl) (by norm_num)

/-- Claim C10: the `inventory_exposure` field is recomputed only on
positive-volume rows; a zero-volume row reports (and keeps) the value
carried from the most recent preceding positive-volume row, and a run
whose very first row has zero volume fails with the unbound-local error
instead of producing any output row. -/
theorem C10_inventory_exposure (invExp : ℚ → ℚ) (pct : ℚ)
    (vpin : List VpinEntry) :
    (∀ st row st' out e, row.tradevolume = 0 → st.invExposure = some e →
      feeStep invExp pct st row = .ok (st', out) →
      out.inventoryExposure = e ∧ st'.invExposure = some e) ∧
    (∀ st row st' out, 0 < |row.tradevolume| →
      feeStep invExp pct st row = .ok (st', out) →
      out.inventoryExposure = invExp row.price ∧
      st'.invExposure = some (invExp row.price)) ∧
    (∀ row rows, row.tradevolume = 0 →
      runFees invExp pct vpin (row :: rows) = .error .unboundInventoryExposure) := by
  refine ⟨?_, ?_, ?_⟩
  · intro st row st' out e htv hie h
    rw [feeStep_zero invExp pct st row e htv hie] at h
    obtain ⟨h1, h2⟩ := Prod.mk.injEq .. ▸ (Except.ok.inj h)
    subst h1
    subst h2
    exact ⟨rfl, rfl⟩
  · intro st row st' out htv h
    rcases hl : st.latestIlliq with _ | l
    · rw [feeStep_pos_none invExp pct st row htv hl] at h
      obtain ⟨h1, h2⟩ := Prod.mk.injEq .. ▸ (Except.ok.inj h)
      subst h1
      subst h2
      exact ⟨rfl, rfl⟩
    · rw [feeStep_pos_some invExp pct st row l htv hl] at h
      obtain ⟨h1, h2⟩ := Prod.mk.injEq .. ▸ (Except.ok.inj h)
      subst h1
      subst h2
      exact ⟨rfl, rfl⟩
  · intro row rows htv
    rw [runFees, runFeesFrom,
      feeStep_zero_unbound invExp pct (initFeeState vpin) row htv rfl]

/-- Witness for C10: a first-row zero-volume run fails with the unbound
error, and a zero-volume step after a positive-volume row reports the
carried exposure `2/5`. -/
theorem C10_witness :
    runFees (fun _ => 1) (1/20) [] [c10ZRow] = .error .unboundInventoryExposure ∧
    c10WOut.inventoryExposure = 2/5 := by
  obtain ⟨hzero, _, hfirst⟩ := C10_inventory_exposure (fun _ => 1) (1/20) []
  refine ⟨hfirst c10ZRow [] rfl, ?_⟩
  exact (hzero c10WSt c10WRow c10WStOut c10WOut (2/5) rfl rfl
    (by with_unfolding_all rfl)).1

end Backtest
